import Mathlib

/-!
# Worker pool for image upload: embedding of `main.go`

The Go program enumerates records of a MongoDB collection, pushes one job per
record on a buffered channel and lets `WorkerCount` goroutines run the
pipeline fetch → upload → record update on each job.

Conventions of the embedding:

* a Go `[]byte` is a list of bytes;
* a Go `string` that the program builds from text is a Lean `String`, which
  stands for its UTF-8 bytes (`utf8`);
* a Go `error` is represented by the bytes of its message, `nil` by `none`;
  error messages and logged lines are kept as bytes because the program
  copies raw bytes of a response into them;
* a Go function returning `(T, error)` returns a pair, so that the value
  returned next to a non-nil error stays visible;
* the collaborators (HTTP client, S3, MongoDB, uuid, json) are fields of an
  environment `Env W`, functions of an arbitrary world state `W`;
* every function returns the list of the effects it performed (`Event`).
-/

namespace WorkerPool

/-! ## Data model -/

/-- Go byte slices. -/
abbrev Bytes := List (Fin 256)

/-- Go error values, represented by the bytes of the message `err.Error()`
yields. -/
abbrev GoError := Bytes

/-- The UTF-8 bytes of a character. -/
def utf8Char (c : Char) : Bytes :=
  let n := c.toNat
  if n < 128 then [Fin.ofNat n]
  else if n < 2048 then [Fin.ofNat (192 + n / 64), Fin.ofNat (128 + n % 64)]
  else if n < 65536 then
    [Fin.ofNat (224 + n / 4096), Fin.ofNat (128 + n / 64 % 64), Fin.ofNat (128 + n % 64)]
  else
    [Fin.ofNat (240 + n / 262144), Fin.ofNat (128 + n / 4096 % 64),
      Fin.ofNat (128 + n / 64 % 64), Fin.ofNat (128 + n % 64)]

/-- The bytes of a Go string given as text: its UTF-8 encoding. -/
def utf8 (s : String) : Bytes :=
  s.data.flatMap utf8Char

/-- The constant `S3_REGION`. -/
def S3_REGION : String := "ap-south-1"

/-- The constant `S3_BUCKET`. -/
def S3_BUCKET : String := "s3 bucket name"

/-- The constant `WorkerCount`. -/
def WorkerCount : Nat := 100

/-- The constant `ChannelBuffer`. -/
def ChannelBuffer : Nat := 10000

/-- The struct `Project`: a job descriptor. -/
structure Project where
  ID : String
  TempLink : String
deriving DecidableEq, Repr

/-- The value `primitive.ObjectID`, an array of twelve bytes. -/
abbrev ObjectID := List (Fin 256)

/-- The value `primitive.NilObjectID`: twelve zero bytes. -/
def NilObjectID : ObjectID := List.replicate 12 0

/-- BSON values, as far as the program builds and reads them
(`bson.M` is `doc`, a Go `[]string` is an `array` of `str`). -/
inductive Bson where
  | objectID (o : ObjectID)
  | str (s : String)
  | int (n : Int)
  | array (xs : List Bson)
  | doc (fields : List (String × Bson))

/-- The request built by `http.NewRequest` and its header. -/
structure HttpRequest where
  Method : String
  URL : String
  Body : Bytes
  Header : List (String × String)
deriving DecidableEq, Repr

/-- The call `req.Header.Set(key, value)`: the entry replaces those of the key. -/
def HttpRequest.headerSet (req : HttpRequest) (key value : String) : HttpRequest :=
  { req with Header := (key, value) :: req.Header.filter (fun kv => kv.1 != key) }

/-- The response `client.Do` hands back: its status code and what
`io.ReadAll(res.Body)` returns, the bytes read and the read error if any. -/
structure HttpResponse where
  StatusCode : Int
  bodyData : Bytes
  bodyErr : Option GoError
deriving DecidableEq, Repr

/-- The struct `s3.PutObjectInput`, with the fields the program sets. -/
structure PutObjectInput where
  Bucket : String
  Key : String
  ACL : String
  Body : Bytes
  ContentLength : Int
  ContentType : String
  ContentDisposition : String
deriving DecidableEq, Repr

/-- The effects of the program, in the order they happen. `fetchCall` and
`uploadCall` mark the entry into the two helper functions. -/
inductive Event where
  | stdout (text : String)
  | logged (text : Bytes)
  | fetchCall (imageUrl : String)
  | httpDo (req : HttpRequest)
  | uploadCall (bucket key : String) (content : Bytes)
  | putObject (input : PutObjectInput)
  | updateOne (filter update : Bson)
  | wgDone

/-- The collaborators of the program. The ones that talk to the outside take
and return a world state, so that their answers may depend on the whole
history of calls. -/
structure Env (W : Type) where
  /-- The call `json.Marshal` on a `map[string]string`. -/
  jsonMarshal : List (String × String) → Except GoError Bytes
  /-- The call `http.NewRequest(method, url, body)`. -/
  httpNewRequest : String → String → Bytes → Except GoError HttpRequest
  /-- The call `client.Do(req)`. -/
  clientDo : W → HttpRequest → W × Except GoError HttpResponse
  /-- The call `uuid.New().String()`. -/
  uuidNewString : W → W × String
  /-- The call `http.DetectContentType`. -/
  detectContentType : Bytes → String
  /-- The call `s3.New(session).PutObject(input)`; only its error is used. -/
  putObject : W → PutObjectInput → W × Option GoError
  /-- The call `primitive.ObjectIDFromHex`: an identifier and an error. -/
  objectIDFromHex : String → ObjectID × Option GoError
  /-- The call `collection.UpdateOne(ctx, filter, update)`; only its error is used. -/
  updateOne : W → Bson → Bson → W × Option GoError
  /-- The call `cursor.Decode(&project)` on the current document. -/
  cursorDecode : Bson → Except GoError Project

/-! ## The helper functions -/

/-- The call `strings.ReplaceAll(s, "-", "")`: every dash is dropped. -/
def removeDashes (s : String) : String :=
  String.mk (s.data.filter (fun c => c != '-'))

/-- The test `res.StatusCode < 200 || res.StatusCode >= 300`. -/
def non2xx (status : Int) : Bool :=
  decide (status < 200) || decide (status ≥ 300)

/-- The function `fetchImageWithoutWatermark`. The verbs `%w` and `%s` copy
the bytes of the wrapped error and of the body into the message, and `%d`
writes the status code in decimal. -/
def fetchImageWithoutWatermark {W : Type} (env : Env W) (w : W) (imageUrl : String) :
    W × List Event × (Bytes × Option GoError) :=
  let url := "http://127.0.0.1:4000/remove-watermark"
  let ev0 := [Event.fetchCall imageUrl, Event.stdout ("###### " ++ imageUrl ++ "\n")]
  match env.jsonMarshal [("image_url", imageUrl)] with
  | .error err => (w, ev0, ([], some (utf8 "failed to marshal payload: " ++ err)))
  | .ok payloadBytes =>
    match env.httpNewRequest "POST" url payloadBytes with
    | .error err => (w, ev0, ([], some (utf8 "failed to create HTTP request: " ++ err)))
    | .ok req0 =>
      let req := req0.headerSet "Content-Type" "application/json"
      match env.clientDo w req with
      | (w1, .error err) =>
        (w1, ev0 ++ [Event.httpDo req],
          ([], some (utf8 "failed to execute HTTP request: " ++ err)))
      | (w1, .ok res) =>
        if non2xx res.StatusCode then
          (w1, ev0 ++ [Event.httpDo req],
            ([], some (utf8 "received unexpected HTTP status: "
              ++ utf8 (toString res.StatusCode) ++ utf8 ", body: " ++ res.bodyData)))
        else
          match res.bodyErr with
          | some err =>
            (w1, ev0 ++ [Event.httpDo req],
              ([], some (utf8 "failed to read response body: " ++ err)))
          | none => (w1, ev0 ++ [Event.httpDo req], (res.bodyData, none))

/-- The function `generateUUID`. -/
def generateUUID {W : Type} (env : Env W) (w : W) : W × String :=
  let r := env.uuidNewString w
  (r.1, removeDashes r.2)

/-- The function `uploadImageToS3`. -/
def uploadImageToS3 {W : Type} (env : Env W) (w : W) (bucket key : String) (content : Bytes) :
    W × List Event × (String × Option GoError) :=
  let input : PutObjectInput :=
    { Bucket := bucket
      Key := key
      ACL := "public-read"
      Body := content
      ContentLength := (content.length : Int)
      ContentType := env.detectContentType content
      ContentDisposition := "attachment" }
  let ev := [Event.uploadCall bucket key content, Event.putObject input]
  match env.putObject w input with
  | (w1, some err) => (w1, ev, ("", some err))
  | (w1, none) =>
    (w1, ev, ("https://" ++ bucket ++ ".s3." ++ S3_REGION ++ ".amazonaws.com/" ++ key, none))

/-! ## The worker -/

/-- The filter `bson.M{"_id": objID}`. -/
def updateFilter (objID : ObjectID) : Bson :=
  Bson.doc [("_id", Bson.objectID objID)]

/-- The update `bson.M{"$set": bson.M{"psf_images": uploadedUrls}}`. -/
def updateDoc (uploadedUrls : List String) : Bson :=
  Bson.doc [("$set", Bson.doc [("psf_images", Bson.array (uploadedUrls.map Bson.str))])]

/-- The body of the loop of `worker`, run on one job. -/
def processJob {W : Type} (env : Env W) (id : Int) (w : W) (project : Project) :
    W × List Event :=
  let ev0 := [Event.stdout
    ("Worker " ++ toString id ++ " processing project ID: " ++ project.ID ++ "\n")]
  let uploadedUrls : List String := []
  match fetchImageWithoutWatermark env w project.TempLink with
  | (w1, ev1, (_, some err)) =>
    (w1, ev0 ++ ev1 ++ [Event.logged (utf8 "Url ==  " ++ err)])
  | (w1, ev1, (content, none)) =>
    let k := generateUUID env w1
    let s3Key := "images/" ++ k.2
    match uploadImageToS3 env k.1 S3_BUCKET s3Key content with
    | (w3, ev3, (_, some _)) =>
      (w3, ev0 ++ ev1 ++ ev3 ++ [Event.logged
        (utf8 ("Worker " ++ toString id ++ ": Failed to upload to S3 for URL: "
          ++ project.TempLink ++ "\n"))])
    | (w3, ev3, (uploadedUrl, none)) =>
      let uploadedUrls := uploadedUrls ++ [uploadedUrl]
      if uploadedUrls.length > 0 then
        let objID := (env.objectIDFromHex project.ID).1
        let filter := updateFilter objID
        let update := updateDoc uploadedUrls
        match env.updateOne w3 filter update with
        | (w4, some _) =>
          (w4, ev0 ++ ev1 ++ ev3 ++ [Event.updateOne filter update, Event.logged
            (utf8 ("Worker " ++ toString id ++ ": Failed to update MongoDB for project ID: "
              ++ project.ID ++ "\n"))])
        | (w4, none) =>
          (w4, ev0 ++ ev1 ++ ev3 ++ [Event.updateOne filter update, Event.stdout
            ("Worker " ++ toString id ++ ": Successfully updated MongoDB for project ID: "
              ++ project.ID ++ "\n")])
      else
        (w3, ev0 ++ ev1 ++ ev3)

/-- The loop `for project := range jobs` of `worker`, on the jobs the channel
delivers to this worker before it is closed and drained. -/
def workerLoop {W : Type} (env : Env W) (id : Int) : W → List Project → W × List Event
  | w, [] => (w, [])
  | w, project :: rest =>
    let r := processJob env id w project
    let rs := workerLoop env id r.1 rest
    (rs.1, r.2 ++ rs.2)

/-- The function `worker`: the loop, then the deferred `wg.Done()`. -/
def worker {W : Type} (env : Env W) (id : Int) (w : W) (jobs : List Project) :
    W × List Event :=
  let r := workerLoop env id w jobs
  (r.1, r.2 ++ [Event.wgDone])

/-- The segment of the trace of a worker that belongs to a job, when the
worker has handled the jobs `pre` before it. -/
def jobTrace {W : Type} (env : Env W) (id : Int) (w : W) (pre : List Project)
    (project : Project) : List Event :=
  (processJob env id (workerLoop env id w pre).1 project).2

/-! ## Reading a trace -/

/-- The record updates of a trace: filter and update document of each
`collection.UpdateOne` call, in order. -/
def updatesOf : List Event → List (Bson × Bson)
  | [] => []
  | Event.updateOne f u :: rest => (f, u) :: updatesOf rest
  | _ :: rest => updatesOf rest

/-- The arguments of the calls of `fetchImageWithoutWatermark` in a trace. -/
def fetchCallsOf : List Event → List String
  | [] => []
  | Event.fetchCall u :: rest => u :: fetchCallsOf rest
  | _ :: rest => fetchCallsOf rest

/-- The arguments of the calls of `uploadImageToS3` in a trace. -/
def uploadCallsOf : List Event → List (String × String × Bytes)
  | [] => []
  | Event.uploadCall b k c :: rest => (b, k, c) :: uploadCallsOf rest
  | _ :: rest => uploadCallsOf rest

/-- The `PutObject` requests of a trace. -/
def putObjectsOf : List Event → List PutObjectInput
  | [] => []
  | Event.putObject i :: rest => i :: putObjectsOf rest
  | _ :: rest => putObjectsOf rest

/-- The identifier a filter of the shape `{"_id": objectID}` selects. -/
def targetOf : Bson → Option ObjectID
  | Bson.doc [(name, Bson.objectID o)] => if name = "_id" then some o else none
  | _ => none

/-- The identifiers targeted by the record updates of a trace, in order. -/
def updateTargets (evs : List Event) : List ObjectID :=
  (updatesOf evs).filterMap (fun fu => targetOf fu.1)

/-- The fetch the worker performs for a job: line 152. -/
def fetched {W : Type} (env : Env W) (w : W) (project : Project) :
    W × List Event × (Bytes × Option GoError) :=
  fetchImageWithoutWatermark env w project.TempLink

/-- The key the worker draws for a job after its fetch: line 159. -/
def drawnKey {W : Type} (env : Env W) (w : W) (project : Project) : W × String :=
  generateUUID env (fetched env w project).1

/-- The upload the worker performs for a job whose fetch succeeded: line 163. -/
def uploaded {W : Type} (env : Env W) (w : W) (project : Project) :
    W × List Event × (String × Option GoError) :=
  uploadImageToS3 env (drawnKey env w project).1 S3_BUCKET
    ("images/" ++ (drawnKey env w project).2) (fetched env w project).2.2.1

/-! ## The job source of `main` -/

/-- The filter of the query of `main`: `bson.M{"images": bson.M{"$size": 0}}`. -/
def findFilter : Bson :=
  Bson.doc [("images", Bson.doc [("$size", Bson.int 0)])]

/-- The limit of the query of `main`: `options.Find().SetLimit(50000)`. -/
def findLimit : Nat := 50000

/-- The loop of `main` that feeds the channel, on the documents the cursor
yields: the jobs sent on the channel, in order, and the lines logged. -/
def feedJobs {W : Type} (env : Env W) : List Bson → List Project × List Event
  | [] => ([], [])
  | d :: rest =>
    match env.cursorDecode d with
    | .error err =>
      ((feedJobs env rest).1,
        Event.logged (utf8 "Failed to decode project: " ++ err) :: (feedJobs env rest).2)
    | .ok project => (project :: (feedJobs env rest).1, (feedJobs env rest).2)

/-! ## The record store

MongoDB is a collaborator. For the statements that speak of what a query
selects and what an update leaves behind, the two operators the program uses
are given their documented meaning on a collection held as a list. -/

/-- The value of a field of a document. -/
def Bson.field (name : String) : Bson → Option Bson
  | Bson.doc fields => fields.lookup name
  | _ => none

/-- The operator `$size`: the value is an array of that many elements. -/
def sizeIs (n : Int) : Option Bson → Bool
  | some (Bson.array xs) => decide ((xs.length : Int) = n)
  | _ => false

/-- The equality of a field with an identifier. -/
def idIs (o : ObjectID) : Option Bson → Bool
  | some (Bson.objectID x) => decide (x = o)
  | _ => false

/-- A document satisfies a filter, for the two shapes of filter the program
builds: `{field: {"$size": n}}` and `{field: objectID}`. -/
def matchesFilter : Bson → Bson → Bool
  | Bson.doc [(name, Bson.doc [(op, Bson.int n)])], d =>
    decide (op = "$size") && sizeIs n (d.field name)
  | Bson.doc [(name, Bson.objectID o)], d => idIs o (d.field name)
  | _, _ => false

/-- A field of a document is set: replaced where present, added otherwise. -/
def setField (name : String) (v : Bson) : List (String × Bson) → List (String × Bson)
  | [] => [(name, v)]
  | (k, x) :: rest => if k = name then (k, v) :: rest else (k, x) :: setField name v rest

/-- The fields of a `$set` are set one after the other. -/
def setFields : List (String × Bson) → List (String × Bson) → List (String × Bson)
  | [], fields => fields
  | (k, v) :: sets, fields => setFields sets (setField k v fields)

/-- An update document of the shape `{"$set": {...}}` applied to a document. -/
def applyUpdate : Bson → Bson → Bson
  | Bson.doc [(op, Bson.doc sets)], Bson.doc fields =>
    if op = "$set" then Bson.doc (setFields sets fields) else Bson.doc fields
  | _, d => d

/-- The call `UpdateOne` on a collection: the first document the filter
selects is updated. -/
def storeUpdateOne (filter update : Bson) : List Bson → List Bson
  | [] => []
  | d :: rest =>
    if matchesFilter filter d then applyUpdate update d :: rest
    else d :: storeUpdateOne filter update rest

/-- The call `collection.Find` of `main` on a collection: the documents the
filter selects, up to the limit. -/
def collectionFind (store : List Bson) : List Bson :=
  (store.filter (matchesFilter findFilter)).take findLimit

/-! ## The pool

The goroutines of `main`, lines 215 to 237, as a transition system. A state
holds what `main` has yet to read from the cursor, the buffer of the channel
`jobs`, whether `close(jobs)` has run, and for each worker the jobs its loop
has received and whether it has returned. An action is one step of `main` or
of one worker; a blocked goroutine has no step. -/

/-- The state of one worker goroutine. -/
structure WorkerState where
  received : List Project
  finished : Bool
deriving DecidableEq, Repr

/-- The state of the pool. The fields `sent` and `dequeues` only record the
history: the jobs sent so far and the number of receive operations. -/
structure Pool where
  cursor : List Bson
  buffer : List Project
  closed : Bool
  workers : List WorkerState
  sent : List Project
  dequeues : Nat

/-- One goroutine takes a step. -/
inductive Action where
  | producer
  | worker (i : Nat)
deriving DecidableEq, Repr

/-- The state after `main` has started its workers: lines 216 to 223. -/
def Pool.init (cursor : List Bson) : Pool :=
  { cursor := cursor
    buffer := []
    closed := false
    workers := List.replicate WorkerCount { received := [], finished := false }
    sent := []
    dequeues := 0 }

/-- The worker at a position is replaced. -/
def setWorker (ws : List WorkerState) (i : Nat) (x : WorkerState) : List WorkerState :=
  match ws, i with
  | [], _ => []
  | _ :: rest, 0 => x :: rest
  | y :: rest, i + 1 => y :: setWorker rest i x

/-- A step of `main`, lines 226 to 236: a document that does not decode is
skipped, a job is sent when the buffer has room, and the channel is closed
once the cursor is exhausted. After that `main` waits. -/
def Pool.producerStep {W : Type} (env : Env W) (s : Pool) : Option Pool :=
  if s.closed then none
  else
    match s.cursor with
    | [] => some { s with closed := true }
    | d :: rest =>
      match env.cursorDecode d with
      | .error _ => some { s with cursor := rest }
      | .ok project =>
        if s.buffer.length < ChannelBuffer then
          some { s with cursor := rest, buffer := s.buffer ++ [project],
                        sent := s.sent ++ [project] }
        else none

/-- A step of a worker, line 149: it receives the oldest job of the buffer,
or returns when the channel is closed and empty. The body of the loop, which
touches neither the channel nor the other goroutines, runs between two
receives and leaves the state of the pool as it is. -/
def Pool.workerStep (s : Pool) (i : Nat) : Option Pool :=
  match s.workers[i]? with
  | none => none
  | some ws =>
    if ws.finished then none
    else
      match s.buffer with
      | project :: rest =>
        some { s with buffer := rest,
                      workers := setWorker s.workers i
                        { ws with received := ws.received ++ [project] },
                      dequeues := s.dequeues + 1 }
      | [] =>
        if s.closed then
          some { s with workers := setWorker s.workers i { ws with finished := true } }
        else none

/-- A step of the pool. -/
def Pool.step {W : Type} (env : Env W) (s : Pool) : Action → Option Pool
  | Action.producer => s.producerStep env
  | Action.worker i => s.workerStep i

/-- An interleaving: the actions are taken in turn, each of them enabled. -/
def Pool.run {W : Type} (env : Env W) : Pool → List Action → Option Pool
  | s, [] => some s
  | s, a :: rest =>
    match s.step env a with
    | none => none
    | some t => Pool.run env t rest

/-- The jobs received by all the workers. -/
def allReceived : List WorkerState → List Project
  | [] => []
  | ws :: rest => ws.received ++ allReceived rest

/-- Every worker has returned: `wg.Wait()` is over. -/
def allFinished (ws : List WorkerState) : Bool :=
  ws.all (fun x => x.finished)

/-- The traces of the workers of a pool, each on the jobs it has received.
The worker at position `i` was started as `worker(i + 1, ...)` by the loop of
line 220, and `starts i` is the world its collaborators answer from. -/
def poolTraces {W : Type} (env : Env W) (starts : Nat → W) :
    Nat → List WorkerState → List (List Event)
  | _, [] => []
  | i, ws :: rest =>
    (worker env ((i : Int) + 1) (starts i) ws.received).2 :: poolTraces env starts (i + 1) rest

/-- The number of workers that have not returned. -/
def unfinished : List WorkerState → Nat
  | [] => 0
  | ws :: rest => (if ws.finished then 0 else 1) + unfinished rest

/-- A bound on the number of steps the pool can still take: two for each
document left in the cursor, one for each job in the buffer, one for the
closing of the channel and one for each worker that has not returned. -/
def Pool.potential (s : Pool) : Nat :=
  2 * s.cursor.length + s.buffer.length + (if s.closed then 0 else 1) + unfinished s.workers

/-- What holds of every state the pool reaches on the documents `docs`: the
jobs sent are those of the documents read so far; the jobs received and the
jobs in the buffer are the jobs sent, each as often; the channel is closed
only when the cursor is exhausted; a worker has returned only when the
channel is closed and empty; the workers are `WorkerCount`; the buffer holds
at most `ChannelBuffer` jobs; and the receive operations are counted. -/
def Pool.Inv {W : Type} (env : Env W) (docs : List Bson) (s : Pool) : Prop :=
  s.sent ++ (feedJobs env s.cursor).1 = (feedJobs env docs).1 ∧
  List.Perm (allReceived s.workers ++ s.buffer) s.sent ∧
  (s.closed = true → s.cursor = []) ∧
  ((∃ ws ∈ s.workers, ws.finished = true) → s.closed = true ∧ s.buffer = []) ∧
  s.workers.length = WorkerCount ∧
  s.buffer.length ≤ ChannelBuffer ∧
  s.dequeues = (allReceived s.workers).length

/-! ## A concrete environment

Used to run the definitions on explicit inputs. The identifier parser follows
`primitive.ObjectIDFromHex` of the MongoDB driver: twenty-four hexadecimal
digits of either case give twelve bytes, anything else gives `NilObjectID`
and an error. -/

/-- The value of a hexadecimal digit, as `encoding/hex` reads it. -/
def fromHexChar (c : Char) : Option Nat :=
  let n := c.toNat
  if 48 ≤ n ∧ n ≤ 57 then some (n - 48)
  else if 97 ≤ n ∧ n ≤ 102 then some (n - 97 + 10)
  else if 65 ≤ n ∧ n ≤ 70 then some (n - 65 + 10)
  else none

/-- The bytes a string of hexadecimal digits denotes. -/
def hexDecode : List Char → Option (List (Fin 256))
  | [] => some []
  | [_] => none
  | a :: b :: rest =>
    match fromHexChar a, fromHexChar b, hexDecode rest with
    | some x, some y, some r => some (Fin.ofNat (x * 16 + y) :: r)
    | _, _, _ => none

/-- The driver function `primitive.ObjectIDFromHex`. -/
def ObjectIDFromHex (s : String) : ObjectID × Option GoError :=
  if s.length ≠ 24 then
    (NilObjectID, some (utf8 "the provided hex string is not a valid ObjectID"))
  else
    match hexDecode s.data with
    | none => (NilObjectID, some (utf8 "encoding/hex: invalid byte"))
    | some b => (b, none)

/-- The lower-case hexadecimal digit of a number below sixteen. -/
def hexDigit (n : Nat) : Char :=
  if n < 10 then Char.ofNat (48 + n) else Char.ofNat (87 + n)

/-- The lower-case hexadecimal text of an identifier, as `ObjectID.Hex` gives it. -/
def hexEncode (o : ObjectID) : String :=
  String.mk (o.flatMap (fun b => [hexDigit (b.val / 16), hexDigit (b.val % 16)]))

/-- A decoder of documents into `Project`: the identifier is a string, or an
identifier rendered in hexadecimal, and the link is a string. -/
def decodeProject (d : Bson) : Except GoError Project :=
  match d.field "_id", d.field "temp_link" with
  | some (Bson.str i), some (Bson.str l) => .ok { ID := i, TempLink := l }
  | some (Bson.objectID o), some (Bson.str l) => .ok { ID := hexEncode o, TempLink := l }
  | _, _ => .error (utf8 "cannot decode document into Project")

/-- An environment whose world is the collection. The transform service
answers every request with the given outcome, the object store answers every
write with the given error, and updates reach the collection unless the given
error says otherwise. -/
def demoEnv (fetchOutcome : Except GoError HttpResponse) (putErr updateErr : Option GoError) :
    Env (List Bson) :=
  { jsonMarshal := fun kv => .ok (utf8 (String.join (kv.map (fun p => p.1 ++ "=" ++ p.2))))
    httpNewRequest := fun m u b => .ok { Method := m, URL := u, Body := b, Header := [] }
    clientDo := fun w _ => (w, fetchOutcome)
    uuidNewString := fun w => (w, "123e4567-e89b-12d3-a456-426614174000")
    detectContentType := fun _ => "application/octet-stream"
    putObject := fun w _ => (w, putErr)
    objectIDFromHex := ObjectIDFromHex
    updateOne := fun w f u =>
      match updateErr with
      | some e => (w, some e)
      | none => (storeUpdateOne f u w, none)
    cursorDecode := decodeProject }

/-- A successful answer of the transform service with a three-byte body. -/
def okResponse : Except GoError HttpResponse :=
  .ok { StatusCode := 200, bodyData := [1, 2, 3], bodyErr := none }

/-- The environment in which every collaborator succeeds. -/
def happyEnv : Env (List Bson) := demoEnv okResponse none none

/-- The environment in which the transform service cannot be reached. -/
def fetchDownEnv : Env (List Bson) :=
  demoEnv (.error (utf8 "dial tcp 127.0.0.1:4000: connect: connection refused")) none none

/-- The environment in which the transform service answers every request
with status 404 and a body of the two bytes `c3 a9`. -/
def notFoundEnv : Env (List Bson) :=
  demoEnv (.ok { StatusCode := 404, bodyData := [195, 169], bodyErr := none }) none none

/-- The environment in which the object store rejects every write. -/
def storeDownEnv : Env (List Bson) := demoEnv okResponse (some (utf8 "AccessDenied")) none

/-- Three jobs with well-formed identifiers. -/
def jobA : Project := { ID := "64b7f0c2a1d3e4f5a6b7c8d1", TempLink := "u1" }

/-- The second job. -/
def jobB : Project := { ID := "64b7f0c2a1d3e4f5a6b7c8d2", TempLink := "u2" }

/-- The third job. -/
def jobC : Project := { ID := "64b7f0c2a1d3e4f5a6b7c8d3", TempLink := "u3" }

/-- The address the worker builds in the concrete environment. -/
def demoUrl : String :=
  "https://s3 bucket name.s3.ap-south-1.amazonaws.com/images/123e4567e89b12d3a456426614174000"

/-- A job whose identifier is not the hexadecimal text of an identifier. -/
def malformedJob : Project := { ID := "not-a-hex-id", TempLink := "u1" }

/-- A job whose identifier is written with upper-case digits. -/
def upperJob : Project := { ID := "AAAAAAAAAAAAAAAAAAAAAAAA", TempLink := "u1" }

/-- A job whose identifier is the same, written with lower-case digits. -/
def lowerJob : Project := { ID := "aaaaaaaaaaaaaaaaaaaaaaaa", TempLink := "u2" }

/-- The identifier both texts denote. -/
def oidAA : ObjectID := List.replicate 12 170

/-- A record without processed images, as the program expects to find it. -/
def recordDoc : Bson :=
  Bson.doc [("_id", Bson.objectID oidAA), ("temp_link", Bson.str "u1"),
    ("images", Bson.array [])]

/-- The same record after the update of the worker. -/
def recordDocUpdated : Bson :=
  Bson.doc [("_id", Bson.objectID oidAA), ("temp_link", Bson.str "u1"),
    ("images", Bson.array []), ("psf_images", Bson.array [Bson.str demoUrl])]

/-- A document the cursor cannot decode into a `Project`. -/
def malformedDoc : Bson := Bson.doc [("_id", Bson.int 7)]

/-- Two documents the cursor decodes. -/
def validDocs : List Bson :=
  [Bson.doc [("_id", Bson.str "a"), ("temp_link", Bson.str "u1")],
   Bson.doc [("_id", Bson.str "b"), ("temp_link", Bson.str "u2")]]

/-- The documents of a run: one that does not decode, then two that do. -/
def demoDocs : List Bson := malformedDoc :: validDocs

/-- An interleaving of that run: `main` skips the first document and sends a
job, the first worker receives it, `main` sends the second job, the second
worker receives it, `main` closes the channel, and every worker returns. -/
def demoSchedule : List Action :=
  [Action.producer, Action.producer, Action.worker 0, Action.producer, Action.worker 1,
    Action.producer] ++ (List.range WorkerCount).map Action.worker

/-- The state that interleaving ends in. -/
def demoPool : Pool :=
  (Pool.run happyEnv (Pool.init demoDocs) demoSchedule).getD (Pool.init [])

/-- The documents of a run whose records have well-formed identifiers, after
one document that does not decode. -/
def runDocs : List Bson :=
  [malformedDoc,
   Bson.doc [("_id", Bson.str "64b7f0c2a1d3e4f5a6b7c8d1"), ("temp_link", Bson.str "u1")],
   Bson.doc [("_id", Bson.str "64b7f0c2a1d3e4f5a6b7c8d2"), ("temp_link", Bson.str "u2")]]

/-- The state the interleaving `demoSchedule` ends in on those documents. -/
def runPool : Pool :=
  (Pool.run happyEnv (Pool.init runDocs) demoSchedule).getD (Pool.init [])

end WorkerPool

/-! # Theorems -/

namespace WorkerPool

/-! ## Traces of the helper functions -/

theorem updatesOf_append (a b : List Event) :
    updatesOf (a ++ b) = updatesOf a ++ updatesOf b := by
  induction a with
  | nil => rfl
  | cons e rest ih => cases e <;> simp [updatesOf, ih]

theorem fetchCallsOf_append (a b : List Event) :
    fetchCallsOf (a ++ b) = fetchCallsOf a ++ fetchCallsOf b := by
  induction a with
  | nil => rfl
  | cons e rest ih => cases e <;> simp [fetchCallsOf, ih]

theorem uploadCallsOf_append (a b : List Event) :
    uploadCallsOf (a ++ b) = uploadCallsOf a ++ uploadCallsOf b := by
  induction a with
  | nil => rfl
  | cons e rest ih => cases e <;> simp [uploadCallsOf, ih]

theorem putObjectsOf_append (a b : List Event) :
    putObjectsOf (a ++ b) = putObjectsOf a ++ putObjectsOf b := by
  induction a with
  | nil => rfl
  | cons e rest ih => cases e <;> simp [putObjectsOf, ih]

/-- The trace of a fetch is its entry mark, its printed line and at most one
HTTP request. -/
theorem fetch_trace {W : Type} (env : Env W) (w : W) (u : String) :
    updatesOf (fetchImageWithoutWatermark env w u).2.1 = [] ∧
    uploadCallsOf (fetchImageWithoutWatermark env w u).2.1 = [] ∧
    putObjectsOf (fetchImageWithoutWatermark env w u).2.1 = [] ∧
    fetchCallsOf (fetchImageWithoutWatermark env w u).2.1 = [u] := by
  unfold fetchImageWithoutWatermark
  simp only []
  split
  · simp [updatesOf, uploadCallsOf, putObjectsOf, fetchCallsOf]
  · split
    · simp [updatesOf, uploadCallsOf, putObjectsOf, fetchCallsOf]
    · split
      · simp [updatesOf, uploadCallsOf, putObjectsOf, fetchCallsOf]
      · split
        · simp [updatesOf, uploadCallsOf, putObjectsOf, fetchCallsOf]
        · split <;> simp [updatesOf, uploadCallsOf, putObjectsOf, fetchCallsOf]

/-- The trace of an upload is its entry mark and its `PutObject` request. -/
theorem upload_trace {W : Type} (env : Env W) (w : W) (bucket key : String) (content : Bytes) :
    updatesOf (uploadImageToS3 env w bucket key content).2.1 = [] ∧
    fetchCallsOf (uploadImageToS3 env w bucket key content).2.1 = [] ∧
    uploadCallsOf (uploadImageToS3 env w bucket key content).2.1 = [(bucket, key, content)] := by
  unfold uploadImageToS3
  simp only []
  split <;> simp [updatesOf, uploadCallsOf, fetchCallsOf]

/-- What an upload returns: the empty string next to an error, the address
of the object otherwise. -/
theorem upload_result {W : Type} (env : Env W) (w : W) (bucket key : String) (content : Bytes) :
    ((uploadImageToS3 env w bucket key content).2.2.2 ≠ none →
      (uploadImageToS3 env w bucket key content).2.2.1 = "") ∧
    ((uploadImageToS3 env w bucket key content).2.2.2 = none →
      (uploadImageToS3 env w bucket key content).2.2.1 =
        "https://" ++ bucket ++ ".s3." ++ S3_REGION ++ ".amazonaws.com/" ++ key) := by
  unfold uploadImageToS3
  simp only []
  split <;> simp

/-! ## One job -/

/-- The job stops after a failed fetch. -/
theorem processJob_fetch_failed {W : Type} (env : Env W) (id : Int) (w : W) (project : Project)
    (h : (fetched env w project).2.2.2 ≠ none) :
    (processJob env id w project).2 =
      [Event.stdout
        ("Worker " ++ toString id ++ " processing project ID: " ++ project.ID ++ "\n")]
      ++ (fetched env w project).2.1
      ++ [Event.logged (utf8 "Url ==  " ++ ((fetched env w project).2.2.2).getD [])] := by
  unfold fetched at h ⊢
  unfold processJob
  rcases hf : fetchImageWithoutWatermark env w project.TempLink with ⟨w1, ev1, content, err⟩
  rw [hf] at h
  cases err with
  | none => exact absurd rfl h
  | some e => simp

/-- The job stops after a failed upload. -/
theorem processJob_upload_failed {W : Type} (env : Env W) (id : Int) (w : W)
    (project : Project)
    (hf : (fetched env w project).2.2.2 = none)
    (hu : (uploaded env w project).2.2.2 ≠ none) :
    (processJob env id w project).2 =
      [Event.stdout
        ("Worker " ++ toString id ++ " processing project ID: " ++ project.ID ++ "\n")]
      ++ (fetched env w project).2.1 ++ (uploaded env w project).2.1
      ++ [Event.logged (utf8 ("Worker " ++ toString id
          ++ ": Failed to upload to S3 for URL: " ++ project.TempLink ++ "\n"))] := by
  unfold uploaded drawnKey fetched at *
  unfold processJob
  rcases hfe : fetchImageWithoutWatermark env w project.TempLink with ⟨w1, ev1, content, err⟩
  rw [hfe] at hf hu
  simp only at hf hu
  subst hf
  simp only
  rcases hue : uploadImageToS3 env (generateUUID env w1).1 S3_BUCKET
    ("images/" ++ (generateUUID env w1).2) content with ⟨w3, ev3, url, uerr⟩
  rw [hue] at hu
  cases uerr with
  | none => exact absurd rfl hu
  | some e => simp

/-- The job issues its update after a successful fetch and upload. -/
theorem processJob_uploaded {W : Type} (env : Env W) (id : Int) (w : W) (project : Project)
    (hf : (fetched env w project).2.2.2 = none)
    (hu : (uploaded env w project).2.2.2 = none) :
    ∃ last : Event,
      ((∃ text, last = Event.stdout text) ∨ (∃ text, last = Event.logged text)) ∧
      (processJob env id w project).2 =
        [Event.stdout
          ("Worker " ++ toString id ++ " processing project ID: " ++ project.ID ++ "\n")]
        ++ (fetched env w project).2.1 ++ (uploaded env w project).2.1
        ++ [Event.updateOne (updateFilter (env.objectIDFromHex project.ID).1)
              (updateDoc [(uploaded env w project).2.2.1]), last] := by
  unfold uploaded drawnKey fetched at *
  unfold processJob
  rcases hfe : fetchImageWithoutWatermark env w project.TempLink with ⟨w1, ev1, content, err⟩
  rw [hfe] at hf hu
  simp only at hf hu
  subst hf
  simp only
  rcases hue : uploadImageToS3 env (generateUUID env w1).1 S3_BUCKET
    ("images/" ++ (generateUUID env w1).2) content with ⟨w3, ev3, url, uerr⟩
  rw [hue] at hu
  simp only at hu
  subst hu
  simp only [List.nil_append, List.length_singleton, gt_iff_lt, Nat.lt_one_iff, if_true,
    Nat.zero_lt_one, ite_true]
  rcases hup : env.updateOne w3 (updateFilter (env.objectIDFromHex project.ID).1)
    (updateDoc [url]) with ⟨w4, merr⟩
  cases merr with
  | none =>
    exact ⟨Event.stdout ("Worker " ++ toString id
      ++ ": Successfully updated MongoDB for project ID: " ++ project.ID ++ "\n"),
      Or.inl ⟨_, rfl⟩, by simp⟩
  | some e =>
    exact ⟨Event.logged (utf8 ("Worker " ++ toString id
      ++ ": Failed to update MongoDB for project ID: " ++ project.ID ++ "\n")),
      Or.inr ⟨_, rfl⟩, by simp⟩

theorem targetOf_updateFilter (o : ObjectID) : targetOf (updateFilter o) = some o := by
  simp [targetOf, updateFilter]

/-- The updates of one job: none, or the single update of a job whose fetch
and upload both succeeded. -/
theorem processJob_updates {W : Type} (env : Env W) (id : Int) (w : W) (project : Project) :
    updatesOf (processJob env id w project).2 = [] ∨
    ((fetched env w project).2.2.2 = none ∧ (uploaded env w project).2.2.2 = none ∧
      updatesOf (processJob env id w project).2 =
        [(updateFilter (env.objectIDFromHex project.ID).1,
          updateDoc [(uploaded env w project).2.2.1])]) := by
  have h1 : updatesOf (fetched env w project).2.1 = [] :=
    (fetch_trace env w project.TempLink).1
  have h2 : updatesOf (uploaded env w project).2.1 = [] :=
    (upload_trace env (drawnKey env w project).1 S3_BUCKET
      ("images/" ++ (drawnKey env w project).2) (fetched env w project).2.2.1).1
  by_cases hf : (fetched env w project).2.2.2 = none
  · by_cases hu : (uploaded env w project).2.2.2 = none
    · right
      obtain ⟨last, hl, ht⟩ := processJob_uploaded env id w project hf hu
      refine ⟨hf, hu, ?_⟩
      rw [ht]
      simp only [updatesOf_append, h1, h2]
      rcases hl with ⟨text, rfl⟩ | ⟨text, rfl⟩ <;> simp [updatesOf]
    · left
      rw [processJob_upload_failed env id w project hf hu]
      simp only [updatesOf_append, h1, h2]
      simp [updatesOf]
  · left
    rw [processJob_fetch_failed env id w project hf]
    simp only [updatesOf_append, h1]
    simp [updatesOf]

/-- Every job calls the transform service once, with its own link. -/
theorem processJob_fetchCalls {W : Type} (env : Env W) (id : Int) (w : W)
    (project : Project) :
    fetchCallsOf (processJob env id w project).2 = [project.TempLink] := by
  have h1 : fetchCallsOf (fetched env w project).2.1 = [project.TempLink] :=
    (fetch_trace env w project.TempLink).2.2.2
  have h2 : fetchCallsOf (uploaded env w project).2.1 = [] :=
    (upload_trace env (drawnKey env w project).1 S3_BUCKET
      ("images/" ++ (drawnKey env w project).2) (fetched env w project).2.2.1).2.1
  by_cases hf : (fetched env w project).2.2.2 = none
  · by_cases hu : (uploaded env w project).2.2.2 = none
    · obtain ⟨last, hl, ht⟩ := processJob_uploaded env id w project hf hu
      rw [ht]
      simp only [fetchCallsOf_append, h1, h2]
      rcases hl with ⟨text, rfl⟩ | ⟨text, rfl⟩ <;> simp [fetchCallsOf]
    · rw [processJob_upload_failed env id w project hf hu]
      simp only [fetchCallsOf_append, h1, h2]
      simp [fetchCallsOf]
  · rw [processJob_fetch_failed env id w project hf]
    simp only [fetchCallsOf_append, h1]
    simp [fetchCallsOf]

/-! ## A sequence of jobs -/

theorem workerLoop_append {W : Type} (env : Env W) (id : Int) (w : W) (a b : List Project) :
    workerLoop env id w (a ++ b) =
      ((workerLoop env id (workerLoop env id w a).1 b).1,
        (workerLoop env id w a).2 ++ (workerLoop env id (workerLoop env id w a).1 b).2) := by
  induction a generalizing w with
  | nil => simp [workerLoop]
  | cons p rest ih => simp [workerLoop, ih]

/-- The trace of a worker is the trace of the jobs before a job, the segment
of that job and the trace of the worker on the jobs after it. -/
theorem worker_trace_split {W : Type} (env : Env W) (id : Int) (w : W)
    (pre post : List Project) (project : Project) :
    (worker env id w (pre ++ project :: post)).2 =
      (workerLoop env id w pre).2 ++ jobTrace env id w pre project ++
        (worker env id (processJob env id (workerLoop env id w pre).1 project).1 post).2 := by
  simp [worker, workerLoop_append, workerLoop, jobTrace]

theorem workerLoop_fetchCalls {W : Type} (env : Env W) (id : Int) (w : W)
    (jobs : List Project) :
    fetchCallsOf (workerLoop env id w jobs).2 = jobs.map Project.TempLink := by
  induction jobs generalizing w with
  | nil => rfl
  | cons p rest ih =>
    simp [workerLoop, fetchCallsOf_append, processJob_fetchCalls, ih]

/-- The targets of the updates of a worker are among the identifiers its jobs
parse to, in the order of the jobs, and every update has a target. -/
theorem workerLoop_targets {W : Type} (env : Env W) (id : Int) (w : W)
    (jobs : List Project) :
    (updateTargets (workerLoop env id w jobs).2).Sublist
      (jobs.map (fun p => (env.objectIDFromHex p.ID).1)) ∧
    (updateTargets (workerLoop env id w jobs).2).length =
      (updatesOf (workerLoop env id w jobs).2).length := by
  induction jobs generalizing w with
  | nil => simp [workerLoop, updateTargets, updatesOf]
  | cons p rest ih =>
    have hr := ih (processJob env id w p).1
    unfold updateTargets at hr ⊢
    simp only [workerLoop, updatesOf_append, List.filterMap_append, List.map_cons,
      List.length_append]
    rcases processJob_updates env id w p with h | ⟨_, _, h⟩
    · rw [h]
      simp only [List.filterMap_nil, List.nil_append, List.length_nil, Nat.zero_add]
      exact ⟨List.Sublist.cons _ hr.1, hr.2⟩
    · rw [h]
      simp only [List.filterMap_cons, targetOf_updateFilter, List.filterMap_nil,
        List.singleton_append, List.length_cons, List.length_nil]
      exact ⟨List.Sublist.cons₂ _ hr.1, by omega⟩

/-- Every update of a worker is the update of one of its jobs, whose fetch
and upload both succeeded. -/
theorem workerLoop_updates_origin {W : Type} (env : Env W) (id : Int) (w : W)
    (jobs : List Project) :
    ∀ u ∈ updatesOf (workerLoop env id w jobs).2,
      ∃ pre project post, jobs = pre ++ project :: post ∧
        (fetched env (workerLoop env id w pre).1 project).2.2.2 = none ∧
        (uploaded env (workerLoop env id w pre).1 project).2.2.2 = none ∧
        u = (updateFilter (env.objectIDFromHex project.ID).1,
          updateDoc [(uploaded env (workerLoop env id w pre).1 project).2.2.1]) := by
  induction jobs generalizing w with
  | nil => intro u hu; simp [workerLoop, updatesOf] at hu
  | cons p rest ih =>
    intro u hu
    simp only [workerLoop, updatesOf_append, List.mem_append] at hu
    rcases hu with hu | hu
    · rcases processJob_updates env id w p with h | ⟨hf, hup, h⟩
      · rw [h] at hu; simp at hu
      · rw [h] at hu
        simp only [List.mem_singleton] at hu
        exact ⟨[], p, rest, rfl, hf, hup, hu⟩
    · obtain ⟨pre, q, post, hj, hf, hup, hq⟩ := ih (processJob env id w p).1 u hu
      refine ⟨p :: pre, q, post, by simp [hj], ?_, ?_, ?_⟩
      · simpa [workerLoop] using hf
      · simpa [workerLoop] using hup
      · simpa [workerLoop] using hq

/-! ## The pipeline of one job, in a sequence of jobs -/

/-- Claim C2. When the fetch of a job returns an error, the segment of the
worker's trace that belongs to the job holds no call of `uploadImageToS3`,
no `PutObject` request and no record update. -/
theorem worker_fetch_error_stops_job {W : Type} (env : Env W) (id : Int) (w : W)
    (pre : List Project) (project : Project)
    (hf : (fetched env (workerLoop env id w pre).1 project).2.2.2 ≠ none) :
    uploadCallsOf (jobTrace env id w pre project) = [] ∧
    putObjectsOf (jobTrace env id w pre project) = [] ∧
    updatesOf (jobTrace env id w pre project) = [] := by
  have ht := fetch_trace env (workerLoop env id w pre).1 project.TempLink
  have h1 : updatesOf (fetched env (workerLoop env id w pre).1 project).2.1 = [] := ht.1
  have h2 : uploadCallsOf (fetched env (workerLoop env id w pre).1 project).2.1 = [] := ht.2.1
  have h3 : putObjectsOf (fetched env (workerLoop env id w pre).1 project).2.1 = [] := ht.2.2.1
  unfold jobTrace
  rw [processJob_fetch_failed env id _ project hf]
  simp only [uploadCallsOf_append, putObjectsOf_append, updatesOf_append, h1, h2, h3]
  simp [uploadCallsOf, putObjectsOf, updatesOf]

/-- Claim C3. When the fetch of a job succeeds and its upload returns an
error, `uploadImageToS3` returns the empty string as address and the segment
of the worker's trace that belongs to the job holds no record update. -/
theorem worker_upload_error_stops_job {W : Type} (env : Env W) (id : Int) (w : W)
    (pre : List Project) (project : Project)
    (hf : (fetched env (workerLoop env id w pre).1 project).2.2.2 = none)
    (hu : (uploaded env (workerLoop env id w pre).1 project).2.2.2 ≠ none) :
    (uploaded env (workerLoop env id w pre).1 project).2.2.1 = "" ∧
    updatesOf (jobTrace env id w pre project) = [] := by
  constructor
  · exact (upload_result env (drawnKey env (workerLoop env id w pre).1 project).1
      S3_BUCKET ("images/" ++ (drawnKey env (workerLoop env id w pre).1 project).2)
      (fetched env (workerLoop env id w pre).1 project).2.2.1).1 hu
  · have h1 : updatesOf (fetched env (workerLoop env id w pre).1 project).2.1 = [] :=
      (fetch_trace env (workerLoop env id w pre).1 project.TempLink).1
    have h2 : updatesOf (uploaded env (workerLoop env id w pre).1 project).2.1 = [] :=
      (upload_trace env (drawnKey env (workerLoop env id w pre).1 project).1 S3_BUCKET
        ("images/" ++ (drawnKey env (workerLoop env id w pre).1 project).2)
        (fetched env (workerLoop env id w pre).1 project).2.2.1).1
    unfold jobTrace
    rw [processJob_upload_failed env id _ project hf hu]
    simp only [updatesOf_append, h1, h2]
    simp [updatesOf]

/-- Witness of C2: the transform service cannot be reached. -/
theorem worker_fetch_error_stops_job_witness :
    (fetched fetchDownEnv (workerLoop fetchDownEnv 1 [] [jobA]).1 jobB).2.2.2 ≠ none ∧
    (uploadCallsOf (jobTrace fetchDownEnv 1 [] [jobA] jobB) = [] ∧
      putObjectsOf (jobTrace fetchDownEnv 1 [] [jobA] jobB) = [] ∧
      updatesOf (jobTrace fetchDownEnv 1 [] [jobA] jobB) = []) :=
  ⟨by decide, worker_fetch_error_stops_job fetchDownEnv 1 [] [jobA] jobB (by decide)⟩

/-- Witness of C3: the object store rejects the write. -/
theorem worker_upload_error_stops_job_witness :
    ((fetched storeDownEnv (workerLoop storeDownEnv 1 [] [jobA]).1 jobB).2.2.2 = none ∧
      (uploaded storeDownEnv (workerLoop storeDownEnv 1 [] [jobA]).1 jobB).2.2.2 ≠ none) ∧
    ((uploaded storeDownEnv (workerLoop storeDownEnv 1 [] [jobA]).1 jobB).2.2.1 = "" ∧
      updatesOf (jobTrace storeDownEnv 1 [] [jobA] jobB) = []) :=
  ⟨⟨by rfl, by decide⟩,
    worker_upload_error_stops_job storeDownEnv 1 [] [jobA] jobB (by rfl) (by decide)⟩

/-! ## The identifier of the record -/

/-- Claim C4, on the code: for the job `malformedJob`, whose identifier
`ObjectIDFromHex` rejects, the worker discards the error and still issues a
record update, aimed at `NilObjectID`. -/
theorem malformed_id_update_issued :
    (happyEnv.objectIDFromHex malformedJob.ID).2 ≠ none ∧
    updatesOf (worker happyEnv 1 [] [malformedJob]).2 =
      [(updateFilter NilObjectID, updateDoc [demoUrl])] :=
  ⟨by decide, by rfl⟩

/-- Counterexample to C5 as stated: two jobs with distinct record identifiers,
every collaborator succeeding, and both updates target the identifier
`oidAA`, which is the identifier of the record `recordDoc` of the store. -/
theorem distinct_ids_same_target :
    upperJob.ID ≠ lowerJob.ID ∧
    updateTargets (worker happyEnv 1 [recordDoc] [upperJob, lowerJob]).2 = [oidAA, oidAA] ∧
    matchesFilter (updateFilter oidAA) recordDoc = true :=
  ⟨by decide, by decide, by rfl⟩

/-! ## The query and the update -/

/-- Claim C10, on the code: the query of `main` reads the field `images` and
the update of the worker sets the field `psf_images`. The record `recordDoc`
is selected by the query, the worker updates it successfully, and the updated
record is selected by the same query again. -/
theorem updated_record_still_selected :
    collectionFind [recordDoc] = [recordDoc] ∧
    (feedJobs happyEnv (collectionFind [recordDoc])).1 =
      [{ ID := "aaaaaaaaaaaaaaaaaaaaaaaa", TempLink := "u1" }] ∧
    (worker happyEnv 1 [recordDoc] (feedJobs happyEnv (collectionFind [recordDoc])).1).1 =
      [recordDocUpdated] ∧
    collectionFind [recordDocUpdated] = [recordDocUpdated] :=
  ⟨by rfl, by rfl, by rfl, by rfl⟩

/-! ## The enumeration loop -/

theorem feedJobs_eq_filterMap {W : Type} (env : Env W) (docs : List Bson) :
    (feedJobs env docs).1 = docs.filterMap (fun d => (env.cursorDecode d).toOption) := by
  induction docs with
  | nil => rfl
  | cons d rest ih =>
    unfold feedJobs
    cases h : env.cursorDecode d with
    | error e => simp [List.filterMap_cons, h, Except.toOption, ih]
    | ok p => simp [List.filterMap_cons, h, Except.toOption, ih]

theorem filterMap_all_some {α β : Type} (f : α → Option β) (l : List α)
    (h : ∀ x ∈ l, f x ≠ none) : (l.filterMap f).length = l.length := by
  induction l with
  | nil => rfl
  | cons x rest ih =>
    have hx := h x (List.mem_cons_self x rest)
    have hr := ih (fun y hy => h y (List.mem_cons_of_mem x hy))
    cases hfx : f x with
    | none => exact absurd hfx hx
    | some y => simp [List.filterMap_cons, hfx, hr]

/-- Claim C7. The loop of `main` sends one job for each document the cursor
yields that decodes, in the order of the cursor, and none for a document that
does not decode; the jobs sent for documents put one after the other are the
jobs of the first ones followed by the jobs of the others, so that a failure
stops nothing; and for one document that does not decode followed by
documents that all decode, there are as many jobs as those documents. -/
theorem feedJobs_one_job_per_decoded_record {W : Type} (env : Env W)
    (docs more : List Bson) (bad : Bson) (valid : List Bson)
    (hbad : (env.cursorDecode bad).toOption = none)
    (hvalid : ∀ d ∈ valid, (env.cursorDecode d).toOption ≠ none) :
    (feedJobs env docs).1 = docs.filterMap (fun d => (env.cursorDecode d).toOption) ∧
    (feedJobs env (docs ++ more)).1 = (feedJobs env docs).1 ++ (feedJobs env more).1 ∧
    (feedJobs env (bad :: valid)).1 = (feedJobs env valid).1 ∧
    (feedJobs env (bad :: valid)).1.length = valid.length := by
  refine ⟨feedJobs_eq_filterMap env docs, ?_, ?_, ?_⟩
  · simp [feedJobs_eq_filterMap, List.filterMap_append]
  · simp [feedJobs_eq_filterMap, List.filterMap_cons, hbad]
  · simp only [feedJobs_eq_filterMap, List.filterMap_cons, hbad]
    exact filterMap_all_some _ valid hvalid

/-- Witness of C7: one document that does not decode, then two that do. -/
theorem feedJobs_one_job_per_decoded_record_witness :
    ((happyEnv.cursorDecode malformedDoc).toOption = none ∧
      ∀ d ∈ validDocs, (happyEnv.cursorDecode d).toOption ≠ none) ∧
    ((feedJobs happyEnv (malformedDoc :: validDocs)).1 =
        (malformedDoc :: validDocs).filterMap (fun d => (happyEnv.cursorDecode d).toOption) ∧
    (feedJobs happyEnv ((malformedDoc :: validDocs) ++ [recordDoc])).1 =
      (feedJobs happyEnv (malformedDoc :: validDocs)).1 ++ (feedJobs happyEnv [recordDoc]).1 ∧
    (feedJobs happyEnv (malformedDoc :: validDocs)).1 = (feedJobs happyEnv validDocs).1 ∧
    (feedJobs happyEnv (malformedDoc :: validDocs)).1.length = validDocs.length) :=
  ⟨⟨by decide, by decide⟩,
    feedJobs_one_job_per_decoded_record happyEnv (malformedDoc :: validDocs) [recordDoc]
      malformedDoc validDocs (by decide) (by decide)⟩

/-! ## The transform client -/

/-- The encoding agrees with UTF-8 on a character of one byte and on
characters of two, three and four bytes. -/
theorem utf8_samples :
    utf8 "a" = [97] ∧ utf8 "é" = [195, 169] ∧ utf8 "€" = [226, 130, 172] ∧
    utf8 "😀" = [240, 159, 152, 128] ∧ utf8 "404" = [52, 48, 52] := by
  decide

theorem utf8_append (a b : String) : utf8 (a ++ b) = utf8 a ++ utf8 b := by
  simp [utf8, String.data_append, List.flatMap_append]

/-- Claim C8. When `client.Do` hands back a response, the fetch returns no
error exactly when the status code lies in `[200, 300)` and the body could be
read, it then returns the whole body, and for a status code outside of
`[200, 300)` it returns no bytes and an error whose message is
`received unexpected HTTP status: `, the status code in decimal, `, body: `
and then the bytes of the body as they were read, so that the message ends
with the body and holds the digits of the status code. -/
theorem fetch_status_contract {W : Type} (env : Env W) (w w1 : W) (imageUrl : String)
    (payload : Bytes) (req : HttpRequest) (res : HttpResponse)
    (hm : env.jsonMarshal [("image_url", imageUrl)] = .ok payload)
    (hr : env.httpNewRequest "POST" "http://127.0.0.1:4000/remove-watermark" payload = .ok req)
    (hd : env.clientDo w (req.headerSet "Content-Type" "application/json") = (w1, .ok res)) :
    ((fetchImageWithoutWatermark env w imageUrl).2.2.2 = none ↔
      (200 ≤ res.StatusCode ∧ res.StatusCode < 300 ∧ res.bodyErr = none)) ∧
    ((200 ≤ res.StatusCode ∧ res.StatusCode < 300 ∧ res.bodyErr = none) →
      (fetchImageWithoutWatermark env w imageUrl).2.2 = (res.bodyData, none)) ∧
    ((res.StatusCode < 200 ∨ 300 ≤ res.StatusCode) →
      (fetchImageWithoutWatermark env w imageUrl).2.2 =
        ([], some (utf8 "received unexpected HTTP status: " ++ utf8 (toString res.StatusCode)
          ++ utf8 ", body: " ++ res.bodyData)) ∧
      ∃ msg, (fetchImageWithoutWatermark env w imageUrl).2.2.2 = some msg ∧
        res.bodyData <:+ msg ∧ utf8 (toString res.StatusCode) <:+: msg) := by
  have hmsg : res.bodyData <:+ (utf8 "received unexpected HTTP status: "
        ++ utf8 (toString res.StatusCode) ++ utf8 ", body: " ++ res.bodyData) ∧
      utf8 (toString res.StatusCode) <:+: (utf8 "received unexpected HTTP status: "
        ++ utf8 (toString res.StatusCode) ++ utf8 ", body: " ++ res.bodyData) :=
    ⟨List.suffix_append _ _,
      ⟨utf8 "received unexpected HTTP status: ", utf8 ", body: " ++ res.bodyData,
        by simp [List.append_assoc]⟩⟩
  by_cases hn : non2xx res.StatusCode = true
  · have hor : res.StatusCode < 200 ∨ 300 ≤ res.StatusCode := by
      simpa [non2xx] using hn
    have hres : (fetchImageWithoutWatermark env w imageUrl).2.2 =
        ([], some (utf8 "received unexpected HTTP status: "
          ++ utf8 (toString res.StatusCode) ++ utf8 ", body: " ++ res.bodyData)) := by
      unfold fetchImageWithoutWatermark
      simp only [hm, hr, hd, hn, if_true]
    rw [hres]
    refine ⟨⟨fun h => ?_, fun h => ?_⟩, fun h => ?_, fun _ => ⟨rfl, _, rfl, hmsg⟩⟩
    · exact absurd h (by simp)
    · omega
    · omega
  · have hin : 200 ≤ res.StatusCode ∧ res.StatusCode < 300 := by
      simp only [non2xx, Bool.or_eq_true, decide_eq_true_eq, not_or, not_lt, ge_iff_le,
        not_le] at hn
      exact hn
    cases hb : res.bodyErr with
    | none =>
      have hres : (fetchImageWithoutWatermark env w imageUrl).2.2 = (res.bodyData, none) := by
        unfold fetchImageWithoutWatermark
        simp only [hm, hr, hd, hn, hb, Bool.false_eq_true, if_false]
      rw [hres]
      exact ⟨⟨fun _ => ⟨hin.1, hin.2, rfl⟩, fun _ => rfl⟩, fun _ => rfl,
        fun h => by omega⟩
    | some e =>
      have hres : (fetchImageWithoutWatermark env w imageUrl).2.2 =
          ([], some (utf8 "failed to read response body: " ++ e)) := by
        unfold fetchImageWithoutWatermark
        simp only [hm, hr, hd, hn, hb, Bool.false_eq_true, if_false]
      rw [hres]
      refine ⟨⟨fun h => ?_, fun h => ?_⟩, fun h => ?_, fun h => by omega⟩
      · exact absurd h (by simp)
      · exact absurd h.2.2 (by simp)
      · exact absurd h.2.2 (by simp)

/-- Witness of C8: a response of status 200 with a three-byte body, and a
response of status 404 whose body is the two bytes `c3 a9`; the message of
the second is written out byte by byte and ends with those two bytes. -/
theorem fetch_status_contract_witness :
    ((fetchImageWithoutWatermark happyEnv [] "u1").2.2.2 = none ↔
        ((200 : Int) ≤ 200 ∧ (200 : Int) < 300 ∧ (none : Option GoError) = none)) ∧
    (fetchImageWithoutWatermark happyEnv [] "u1").2.2 = ([1, 2, 3], none) ∧
    ((fetchImageWithoutWatermark notFoundEnv [] "u1").2.2.2 = none ↔
        ((200 : Int) ≤ 404 ∧ (404 : Int) < 300 ∧ (none : Option GoError) = none)) ∧
    (fetchImageWithoutWatermark notFoundEnv [] "u1").2.2 =
      ([], some (utf8 "received unexpected HTTP status: " ++ utf8 (toString (404 : Int))
        ++ utf8 ", body: " ++ [195, 169])) ∧
    (fetchImageWithoutWatermark notFoundEnv [] "u1").2.2 =
      ([], some [114, 101, 99, 101, 105, 118, 101, 100, 32, 117, 110, 101, 120, 112, 101,
        99, 116, 101, 100, 32, 72, 84, 84, 80, 32, 115, 116, 97, 116, 117, 115, 58, 32,
        52, 48, 52, 44, 32, 98, 111, 100, 121, 58, 32, 195, 169]) :=
  ⟨(fetch_status_contract happyEnv [] [] "u1" (utf8 "image_url=u1")
      { Method := "POST", URL := "http://127.0.0.1:4000/remove-watermark",
        Body := utf8 "image_url=u1", Header := [] }
      { StatusCode := 200, bodyData := [1, 2, 3], bodyErr := none }
      (by rfl) (by rfl) (by rfl)).1,
    (fetch_status_contract happyEnv [] [] "u1" (utf8 "image_url=u1")
      { Method := "POST", URL := "http://127.0.0.1:4000/remove-watermark",
        Body := utf8 "image_url=u1", Header := [] }
      { StatusCode := 200, bodyData := [1, 2, 3], bodyErr := none }
      (by rfl) (by rfl) (by rfl)).2.1 (by decide),
    (fetch_status_contract notFoundEnv [] [] "u1" (utf8 "image_url=u1")
      { Method := "POST", URL := "http://127.0.0.1:4000/remove-watermark",
        Body := utf8 "image_url=u1", Header := [] }
      { StatusCode := 404, bodyData := [195, 169], bodyErr := none }
      (by rfl) (by rfl) (by rfl)).1,
    ((fetch_status_contract notFoundEnv [] [] "u1" (utf8 "image_url=u1")
      { Method := "POST", URL := "http://127.0.0.1:4000/remove-watermark",
        Body := utf8 "image_url=u1", Header := [] }
      { StatusCode := 404, bodyData := [195, 169], bodyErr := none }
      (by rfl) (by rfl) (by rfl)).2.2 (by decide)).1,
    by decide⟩

/-! ## The pool -/

theorem setWorker_length (ws : List WorkerState) (i : Nat) (x : WorkerState) :
    (setWorker ws i x).length = ws.length := by
  induction ws generalizing i with
  | nil => simp [setWorker]
  | cons y rest ih =>
    cases i with
    | zero => simp [setWorker]
    | succ n => simp [setWorker, ih]

theorem setWorker_mem (ws : List WorkerState) (i : Nat) (x z : WorkerState)
    (h : z ∈ setWorker ws i x) : z = x ∨ z ∈ ws := by
  induction ws generalizing i with
  | nil => simp [setWorker] at h
  | cons y rest ih =>
    cases i with
    | zero =>
      simp only [setWorker, List.mem_cons] at h
      rcases h with h | h
      · exact Or.inl h
      · exact Or.inr (List.mem_cons_of_mem _ h)
    | succ n =>
      simp only [setWorker, List.mem_cons] at h
      rcases h with h | h
      · exact Or.inr (by simp [h])
      · rcases ih n h with h | h
        · exact Or.inl h
        · exact Or.inr (List.mem_cons_of_mem _ h)

/-- A receive adds the job to the jobs received, once. -/
theorem allReceived_setWorker_receive (ws : List WorkerState) (i : Nat)
    (y : WorkerState) (project : Project) (h : ws[i]? = some y) :
    List.Perm
      (allReceived (setWorker ws i { y with received := y.received ++ [project] }))
      (project :: allReceived ws) := by
  induction ws generalizing i with
  | nil => simp at h
  | cons z rest ih =>
    cases i with
    | zero =>
      simp only [List.getElem?_cons_zero, Option.some.injEq] at h
      subst h
      simp only [setWorker, allReceived, List.append_assoc, List.singleton_append]
      exact List.perm_middle
    | succ n =>
      simp only [List.getElem?_cons_succ] at h
      simp only [setWorker, allReceived]
      have := (ih n h).append_left z.received
      exact this.trans List.perm_middle

/-- A return leaves the jobs received as they are. -/
theorem allReceived_setWorker_finish (ws : List WorkerState) (i : Nat)
    (y : WorkerState) (h : ws[i]? = some y) :
    allReceived (setWorker ws i { y with finished := true }) = allReceived ws := by
  induction ws generalizing i with
  | nil => simp at h
  | cons z rest ih =>
    cases i with
    | zero =>
      simp only [List.getElem?_cons_zero, Option.some.injEq] at h
      subst h
      simp [setWorker, allReceived]
    | succ n =>
      simp only [List.getElem?_cons_succ] at h
      simp [setWorker, allReceived, ih n h]

theorem unfinished_setWorker_receive (ws : List WorkerState) (i : Nat)
    (y : WorkerState) (r : List Project) (h : ws[i]? = some y) :
    unfinished (setWorker ws i { y with received := r }) = unfinished ws := by
  induction ws generalizing i with
  | nil => simp at h
  | cons z rest ih =>
    cases i with
    | zero =>
      simp only [List.getElem?_cons_zero, Option.some.injEq] at h
      subst h
      simp [setWorker, unfinished]
    | succ n =>
      simp only [List.getElem?_cons_succ] at h
      simp [setWorker, unfinished, ih n h]

theorem unfinished_setWorker_finish (ws : List WorkerState) (i : Nat)
    (y : WorkerState) (h : ws[i]? = some y) (hy : y.finished = false) :
    unfinished (setWorker ws i { y with finished := true }) + 1 = unfinished ws := by
  induction ws generalizing i with
  | nil => simp at h
  | cons z rest ih =>
    cases i with
    | zero =>
      simp only [List.getElem?_cons_zero, Option.some.injEq] at h
      subst h
      simp [setWorker, unfinished, hy]
      omega
    | succ n =>
      simp only [List.getElem?_cons_succ] at h
      have := ih n h
      simp only [setWorker, unfinished]
      omega

/-- A pool where some worker has not returned has such a worker at hand. -/
theorem exists_unfinished (ws : List WorkerState) (h : allFinished ws = false) :
    ∃ (i : Nat) (y : WorkerState), ws[i]? = some y ∧ y.finished = false := by
  induction ws with
  | nil => simp [allFinished] at h
  | cons z rest ih =>
    by_cases hz : z.finished = true
    · have hr : allFinished rest = false := by
        simp only [allFinished, List.all_cons, hz, Bool.true_and] at h
        exact h
      obtain ⟨i, y, hi, hy⟩ := ih hr
      exact ⟨i + 1, y, by rw [List.getElem?_cons_succ]; exact hi, hy⟩
    · exact ⟨0, z, List.getElem?_cons_zero, by simpa using hz⟩

theorem allFinished_mem (ws : List WorkerState) (h : allFinished ws = true)
    (x : WorkerState) (hx : x ∈ ws) : x.finished = true := by
  simp only [allFinished, List.all_eq_true] at h
  exact h x hx

theorem allReceived_replicate (n : Nat) :
    allReceived (List.replicate n { received := [], finished := false }) = [] := by
  induction n with
  | zero => rfl
  | succ k ih => simp [List.replicate_succ, allReceived, ih]

theorem unfinished_replicate (n : Nat) :
    unfinished (List.replicate n { received := [], finished := false }) = n := by
  induction n with
  | zero => rfl
  | succ k ih => simp [List.replicate_succ, unfinished, ih]; omega

/-- The invariant holds when the workers have just been started. -/
theorem inv_init {W : Type} (env : Env W) (docs : List Bson) :
    (Pool.init docs).Inv env docs := by
  refine ⟨by simp [Pool.init], ?_, by simp [Pool.init], ?_, by simp [Pool.init],
    by simp [Pool.init], ?_⟩
  · simp [Pool.init, allReceived_replicate]
  · rintro ⟨ws, hws, hf⟩
    simp only [Pool.init, List.mem_replicate] at hws
    rw [hws.2] at hf
    simp at hf
  · simp [Pool.init, allReceived_replicate]

/-- The steps of `main`: a close, a skip or a send. -/
theorem producerStep_cases {W : Type} (env : Env W) (s t : Pool)
    (hstep : s.producerStep env = some t) :
    s.closed = false ∧
    ((s.cursor = [] ∧ t = { s with closed := true }) ∨
     (∃ d rest e, s.cursor = d :: rest ∧ env.cursorDecode d = .error e ∧
        t = { s with cursor := rest }) ∨
     (∃ d rest project, s.cursor = d :: rest ∧ env.cursorDecode d = .ok project ∧
        s.buffer.length < ChannelBuffer ∧
        t = { s with cursor := rest, buffer := s.buffer ++ [project],
                     sent := s.sent ++ [project] })) := by
  unfold Pool.producerStep at hstep
  by_cases hc : s.closed = true
  · simp [hc] at hstep
  · have hcf : s.closed = false := by simpa using hc
    refine ⟨hcf, ?_⟩
    rw [if_neg hc] at hstep
    split at hstep
    · next hcur =>
      left
      exact ⟨hcur, (Option.some.inj hstep).symm⟩
    · next d rest hcur =>
      split at hstep
      · next e hd =>
        right; left
        exact ⟨d, rest, e, hcur, hd, (Option.some.inj hstep).symm⟩
      · next project hd =>
        right; right
        by_cases hb : s.buffer.length < ChannelBuffer
        · rw [if_pos hb] at hstep
          exact ⟨d, rest, project, hcur, hd, hb, (Option.some.inj hstep).symm⟩
        · rw [if_neg hb] at hstep
          exact absurd hstep (by simp)

/-- The steps of a worker: a receive or a return. -/
theorem workerStep_cases (s t : Pool) (i : Nat) (hstep : s.workerStep i = some t) :
    ∃ y, s.workers[i]? = some y ∧ y.finished = false ∧
    ((∃ project rest, s.buffer = project :: rest ∧
        t = { s with buffer := rest,
                     workers := setWorker s.workers i
                       { y with received := y.received ++ [project] },
                     dequeues := s.dequeues + 1 }) ∨
     (s.buffer = [] ∧ s.closed = true ∧
        t = { s with workers := setWorker s.workers i { y with finished := true } })) := by
  unfold Pool.workerStep at hstep
  split at hstep
  · exact absurd hstep (by simp)
  · next y hg =>
    by_cases hy : y.finished = true
    · rw [if_pos hy] at hstep
      exact absurd hstep (by simp)
    · rw [if_neg hy] at hstep
      refine ⟨y, hg, by simpa using hy, ?_⟩
      split at hstep
      · next project rest hb =>
        left
        exact ⟨project, rest, hb, (Option.some.inj hstep).symm⟩
      · next hb =>
        by_cases hc : s.closed = true
        · rw [if_pos hc] at hstep
          right
          exact ⟨hb, hc, (Option.some.inj hstep).symm⟩
        · rw [if_neg hc] at hstep
          exact absurd hstep (by simp)

/-- A step of `main` keeps the invariant. -/
theorem inv_producerStep {W : Type} (env : Env W) (docs : List Bson) (s t : Pool)
    (hinv : s.Inv env docs) (hstep : s.producerStep env = some t) : t.Inv env docs := by
  obtain ⟨h1, h2, h3, h4, h5, h6, h7⟩ := hinv
  obtain ⟨hc, hcase⟩ := producerStep_cases env s t hstep
  have hnf : ¬ ∃ ws ∈ s.workers, ws.finished = true := by
    intro h
    have := (h4 h).1
    rw [hc] at this
    exact absurd this (by simp)
  rcases hcase with ⟨hcur, rfl⟩ | ⟨d, rest, e, hcur, hd, rfl⟩ | ⟨d, rest, project, hcur, hd, hb, rfl⟩
  · refine ⟨h1, h2, fun _ => hcur, fun h => absurd h hnf, h5, h6, h7⟩
  · refine ⟨?_, h2, ?_, fun h => absurd h hnf, h5, h6, h7⟩
    · rw [hcur] at h1
      simpa [feedJobs, hd] using h1
    · intro h
      rw [hc] at h
      exact absurd h (by simp)
  · refine ⟨?_, ?_, ?_, fun h => absurd h hnf, h5, ?_, h7⟩
    · rw [hcur] at h1
      simpa [feedJobs, hd] using h1
    · show List.Perm (allReceived s.workers ++ (s.buffer ++ [project])) (s.sent ++ [project])
      rw [← List.append_assoc]
      exact h2.append_right [project]
    · intro h
      rw [hc] at h
      exact absurd h (by simp)
    · show (s.buffer ++ [project]).length ≤ ChannelBuffer
      simp only [List.length_append, List.length_singleton]
      omega

/-- A step of a worker keeps the invariant. -/
theorem inv_workerStep {W : Type} (env : Env W) (docs : List Bson) (s t : Pool) (i : Nat)
    (hinv : s.Inv env docs) (hstep : s.workerStep i = some t) : t.Inv env docs := by
  obtain ⟨h1, h2, h3, h4, h5, h6, h7⟩ := hinv
  obtain ⟨y, hg, hyf, hcase⟩ := workerStep_cases s t i hstep
  rcases hcase with ⟨project, rest, hb, rfl⟩ | ⟨hb, hc, rfl⟩
  · have hp := allReceived_setWorker_receive s.workers i y project hg
    refine ⟨h1, ?_, h3, ?_, ?_, ?_, ?_⟩
    · show List.Perm (allReceived (setWorker s.workers i
        { y with received := y.received ++ [project] }) ++ rest) s.sent
      rw [hb] at h2
      refine List.Perm.trans ?_ h2
      exact (hp.append_right rest).trans (by simpa using List.perm_middle.symm)
    · rintro ⟨ws, hws, hf⟩
      rcases setWorker_mem _ _ _ _ hws with h | h
      · subst h
        rw [hyf] at hf
        exact absurd hf (by simp)
      · have := (h4 ⟨ws, h, hf⟩).2
        rw [hb] at this
        exact absurd this (by simp)
    · show (setWorker s.workers i _).length = WorkerCount
      rw [setWorker_length]; exact h5
    · show rest.length ≤ ChannelBuffer
      rw [hb] at h6
      simp only [List.length_cons] at h6
      omega
    · show s.dequeues + 1 = (allReceived (setWorker s.workers i
        { y with received := y.received ++ [project] })).length
      rw [hp.length_eq, List.length_cons, h7]
  · have hr := allReceived_setWorker_finish s.workers i y hg
    refine ⟨h1, ?_, h3, fun _ => ⟨hc, hb⟩, ?_, h6, ?_⟩
    · show List.Perm (allReceived (setWorker s.workers i { y with finished := true })
        ++ s.buffer) s.sent
      rw [hr]; exact h2
    · show (setWorker s.workers i _).length = WorkerCount
      rw [setWorker_length]; exact h5
    · show s.dequeues = (allReceived (setWorker s.workers i
        { y with finished := true })).length
      rw [hr]; exact h7

/-- Every step keeps the invariant. -/
theorem inv_step {W : Type} (env : Env W) (docs : List Bson) (s t : Pool) (a : Action)
    (hinv : s.Inv env docs) (hstep : s.step env a = some t) : t.Inv env docs := by
  cases a with
  | producer => exact inv_producerStep env docs s t hinv hstep
  | worker i => exact inv_workerStep env docs s t i hinv hstep

/-- Every step uses up some of the potential. -/
theorem potential_step {W : Type} (env : Env W) (s t : Pool) (a : Action)
    (hstep : s.step env a = some t) : t.potential + 1 ≤ s.potential := by
  cases a with
  | producer =>
    obtain ⟨hc, hcase⟩ := producerStep_cases env s t hstep
    rcases hcase with ⟨hcur, rfl⟩ | ⟨d, rest, e, hcur, hd, rfl⟩ |
      ⟨d, rest, project, hcur, hd, hb, rfl⟩
    · simp only [Pool.potential, hc, hcur, if_true, Bool.false_eq_true, if_false]
      omega
    · simp only [Pool.potential, hcur, List.length_cons]
      omega
    · simp only [Pool.potential, hcur, List.length_cons, List.length_append,
        List.length_singleton, List.length_nil]
      omega
  | worker i =>
    obtain ⟨y, hg, hyf, hcase⟩ := workerStep_cases s t i hstep
    rcases hcase with ⟨project, rest, hb, rfl⟩ | ⟨hb, hc, rfl⟩
    · have hu := unfinished_setWorker_receive s.workers i y (y.received ++ [project]) hg
      simp only [Pool.potential, hb, List.length_cons, hu]
      omega
    · have hu := unfinished_setWorker_finish s.workers i y hg hyf
      simp only [Pool.potential]
      omega

/-- While a worker has not returned, some goroutine can take a step. -/
theorem step_enabled {W : Type} (env : Env W) (s : Pool)
    (hnf : allFinished s.workers = false) :
    ∃ a t, s.step env a = some t := by
  obtain ⟨i, y, hg, hy⟩ := exists_unfinished s.workers hnf
  have hyn : ¬ y.finished = true := by simp [hy]
  cases hb : s.buffer with
  | cons project rest =>
    have h : s.step env (Action.worker i) =
        some { s with buffer := rest,
                      workers := setWorker s.workers i
                        { y with received := y.received ++ [project] },
                      dequeues := s.dequeues + 1 } := by
      simp only [Pool.step, Pool.workerStep, hg, hb, if_neg hyn]
    exact ⟨_, _, h⟩
  | nil =>
    by_cases hc : s.closed = true
    · have h : s.step env (Action.worker i) =
          some { s with workers := setWorker s.workers i { y with finished := true } } := by
        simp only [Pool.step, Pool.workerStep, hg, hb, if_neg hyn, if_pos hc]
      exact ⟨_, _, h⟩
    · cases hcur : s.cursor with
      | nil =>
        have h : s.step env Action.producer = some { s with closed := true } := by
          simp only [Pool.step, Pool.producerStep, hcur, if_neg hc]
        exact ⟨_, _, h⟩
      | cons d rest =>
        cases hd : env.cursorDecode d with
        | error e =>
          have h : s.step env Action.producer = some { s with cursor := rest } := by
            simp only [Pool.step, Pool.producerStep, hcur, hd, if_neg hc]
          exact ⟨_, _, h⟩
        | ok project =>
          have hlt : s.buffer.length < ChannelBuffer := by
            rw [hb]; simp [ChannelBuffer]
          have h : s.step env Action.producer =
              some { s with cursor := rest, buffer := s.buffer ++ [project],
                            sent := s.sent ++ [project] } := by
            simp only [Pool.step, Pool.producerStep, hcur, hd, if_neg hc, if_pos hlt]
          exact ⟨_, _, h⟩

/-- The invariant holds along every interleaving, whose length the potential bounds. -/
theorem inv_run {W : Type} (env : Env W) (docs : List Bson) (s t : Pool)
    (sched : List Action) (hinv : s.Inv env docs) (hrun : Pool.run env s sched = some t) :
    t.Inv env docs ∧ sched.length + t.potential ≤ s.potential := by
  induction sched generalizing s with
  | nil =>
    simp only [Pool.run, Option.some.injEq] at hrun
    subst hrun
    exact ⟨hinv, by simp⟩
  | cons a rest ih =>
    simp only [Pool.run] at hrun
    cases hs : s.step env a with
    | none => simp [hs] at hrun
    | some u =>
      simp only [hs] at hrun
      have hu := inv_step env docs s u a hinv hs
      have hp := potential_step env s u a hs
      obtain ⟨ht, hl⟩ := ih u hu hrun
      refine ⟨ht, ?_⟩
      simp only [List.length_cons]
      omega

/-- Claim C9. Along every interleaving of `main` and the `WorkerCount`
workers: the jobs sent so far are the first jobs of the enumeration; every
job sent is either still in the buffer or has been received, by one worker
and once, so that the receive operations and the jobs in the buffer add up to
the jobs sent; the channel is closed only after all the jobs of the
enumeration have been sent; when all the workers have returned, the receive
operations are exactly as many as the jobs of the enumeration and the jobs
received are those jobs; until then some goroutine can take a step; and the
interleaving has at most `2 * docs.length + WorkerCount + 1` steps. -/
theorem pool_no_duplication_no_loss {W : Type} (env : Env W) (docs : List Bson)
    (sched : List Action) (s : Pool)
    (hrun : Pool.run env (Pool.init docs) sched = some s) :
    (feedJobs env docs).1 = s.sent ++ (feedJobs env s.cursor).1 ∧
    List.Perm (allReceived s.workers ++ s.buffer) s.sent ∧
    s.dequeues = (allReceived s.workers).length ∧
    s.dequeues + s.buffer.length = s.sent.length ∧
    (s.closed = true → s.sent = (feedJobs env docs).1) ∧
    (allFinished s.workers = true →
      s.dequeues = (feedJobs env docs).1.length ∧
      List.Perm (allReceived s.workers) (feedJobs env docs).1) ∧
    (allFinished s.workers = false → ∃ a t, s.step env a = some t) ∧
    sched.length + s.potential ≤ 2 * docs.length + WorkerCount + 1 := by
  obtain ⟨⟨h1, h2, h3, h4, h5, h6, h7⟩, hpot⟩ :=
    inv_run env docs (Pool.init docs) s sched (inv_init env docs) hrun
  have hclosed : s.closed = true → s.sent = (feedJobs env docs).1 := by
    intro hc
    have := h3 hc
    rw [this] at h1
    simpa [feedJobs] using h1
  refine ⟨h1.symm, h2, h7, ?_, hclosed, ?_, step_enabled env s, ?_⟩
  · have := h2.length_eq
    simp only [List.length_append] at this
    omega
  · intro hall
    have hne : s.workers ≠ [] := by
      intro hnil
      rw [hnil] at h5
      simp [WorkerCount] at h5
    obtain ⟨x, rest, hx⟩ := List.exists_cons_of_ne_nil hne
    have hxm : x ∈ s.workers := by rw [hx]; simp
    have hfin := allFinished_mem s.workers hall x hxm
    obtain ⟨hc, hb⟩ := h4 ⟨x, hxm, hfin⟩
    have hs := hclosed hc
    rw [hb, List.append_nil, hs] at h2
    exact ⟨by rw [h7, h2.length_eq], h2⟩
  · have hi : (Pool.init docs).potential = 2 * docs.length + WorkerCount + 1 := by
      simp only [Pool.potential, Pool.init, unfinished_replicate]
      simp
      omega
    omega

set_option maxRecDepth 100000 in
/-- Witness of C9: the run `demoSchedule` on `demoDocs`. -/
theorem pool_no_duplication_no_loss_witness :
    Pool.run happyEnv (Pool.init demoDocs) demoSchedule = some demoPool ∧
    ((feedJobs happyEnv demoDocs).1 = demoPool.sent ++ (feedJobs happyEnv demoPool.cursor).1 ∧
    List.Perm (allReceived demoPool.workers ++ demoPool.buffer) demoPool.sent ∧
    demoPool.dequeues = (allReceived demoPool.workers).length ∧
    demoPool.dequeues + demoPool.buffer.length = demoPool.sent.length ∧
    (demoPool.closed = true → demoPool.sent = (feedJobs happyEnv demoDocs).1) ∧
    (allFinished demoPool.workers = true →
      demoPool.dequeues = (feedJobs happyEnv demoDocs).1.length ∧
      List.Perm (allReceived demoPool.workers) (feedJobs happyEnv demoDocs).1) ∧
    (allFinished demoPool.workers = false → ∃ a t, demoPool.step happyEnv a = some t) ∧
    demoSchedule.length + demoPool.potential ≤ 2 * demoDocs.length + WorkerCount + 1) :=
  ⟨by rfl, pool_no_duplication_no_loss happyEnv demoDocs demoSchedule demoPool (by rfl)⟩

/-- Claim C6. A worker calls the transform service once for each job of its
sequence, with the link of that job and in the order of the sequence,
whatever the outcome of the stages of the earlier jobs; each job has its own
segment in the trace, between the trace of the jobs before it and the trace
of the jobs after it; and, along every interleaving of the pool, a worker has
returned only when the channel is closed and its buffer empty. -/
theorem worker_attempts_every_job {W : Type} (env : Env W) (id : Int) (w : W)
    (jobs : List Project) (docs : List Bson) (sched : List Action) (s : Pool)
    (hrun : Pool.run env (Pool.init docs) sched = some s) :
    fetchCallsOf (worker env id w jobs).2 = jobs.map Project.TempLink ∧
    (∀ pre project post, jobs = pre ++ project :: post →
      (worker env id w jobs).2 =
        (workerLoop env id w pre).2 ++ jobTrace env id w pre project ++
          (worker env id (processJob env id (workerLoop env id w pre).1 project).1 post).2) ∧
    (∀ ws ∈ s.workers, ws.finished = true → s.closed = true ∧ s.buffer = []) := by
  refine ⟨?_, ?_, ?_⟩
  · simp [worker, fetchCallsOf_append, workerLoop_fetchCalls, fetchCallsOf]
  · intro pre project post hj
    rw [hj]
    exact worker_trace_split env id w pre post project
  · intro ws hws hf
    exact (inv_run env docs (Pool.init docs) s sched (inv_init env docs) hrun).1.2.2.2.1
      ⟨ws, hws, hf⟩

set_option maxRecDepth 100000 in
/-- Witness of C6: three jobs of which the transform service serves none, and
the run `demoSchedule`, which depends on the environment through the decoder
of documents only and so ends in `demoPool` here as well. -/
theorem worker_attempts_every_job_witness :
    Pool.run fetchDownEnv (Pool.init demoDocs) demoSchedule = some demoPool ∧
    (fetchCallsOf (worker fetchDownEnv 1 [] [jobA, jobB, jobC]).2 =
      [jobA, jobB, jobC].map Project.TempLink ∧
    (∀ pre project post, [jobA, jobB, jobC] = pre ++ project :: post →
      (worker fetchDownEnv 1 [] [jobA, jobB, jobC]).2 =
        (workerLoop fetchDownEnv 1 [] pre).2 ++ jobTrace fetchDownEnv 1 [] pre project ++
          (worker fetchDownEnv 1
            (processJob fetchDownEnv 1 (workerLoop fetchDownEnv 1 [] pre).1 project).1
            post).2) ∧
    (∀ ws ∈ demoPool.workers, ws.finished = true →
      demoPool.closed = true ∧ demoPool.buffer = [])) :=
  ⟨by rfl, worker_attempts_every_job fetchDownEnv 1 [] [jobA, jobB, jobC] demoDocs
    demoSchedule demoPool (by rfl)⟩

/-! ## The updates of a run -/

theorem updatesOf_eq_filterMap (evs : List Event) :
    updatesOf evs = evs.filterMap
      (fun e => match e with
        | Event.updateOne f u => some (f, u)
        | _ => none) := by
  induction evs with
  | nil => rfl
  | cons e rest ih => cases e <;> simp [updatesOf, ih]

theorem updatesOf_perm (a b : List Event) (h : a.Perm b) :
    (updatesOf a).Perm (updatesOf b) := by
  rw [updatesOf_eq_filterMap, updatesOf_eq_filterMap]
  exact h.filterMap _

theorem updateTargets_perm (a b : List Event) (h : a.Perm b) :
    (updateTargets a).Perm (updateTargets b) :=
  (updatesOf_perm a b h).filterMap _

theorem updateTargets_append (a b : List Event) :
    updateTargets (a ++ b) = updateTargets a ++ updateTargets b := by
  simp [updateTargets, updatesOf_append, List.filterMap_append]

theorem worker_updates {W : Type} (env : Env W) (id : Int) (w : W) (jobs : List Project) :
    updatesOf (worker env id w jobs).2 = updatesOf (workerLoop env id w jobs).2 := by
  simp [worker, updatesOf_append, updatesOf]

theorem worker_targets {W : Type} (env : Env W) (id : Int) (w : W) (jobs : List Project) :
    updateTargets (worker env id w jobs).2 = updateTargets (workerLoop env id w jobs).2 := by
  simp [updateTargets, worker_updates]

/-- The targets of the updates of all the workers are among the identifiers
the jobs they received parse to, and every update has a target. -/
theorem poolTraces_targets {W : Type} (env : Env W) (starts : Nat → W) (k : Nat)
    (wss : List WorkerState) :
    (updateTargets (poolTraces env starts k wss).flatten).Sublist
      ((allReceived wss).map (fun p => (env.objectIDFromHex p.ID).1)) ∧
    (updateTargets (poolTraces env starts k wss).flatten).length =
      (updatesOf (poolTraces env starts k wss).flatten).length := by
  induction wss generalizing k with
  | nil => simp [poolTraces, allReceived, updateTargets, updatesOf]
  | cons ws rest ih =>
    have hw := workerLoop_targets env ((k : Int) + 1) (starts k) ws.received
    have hr := ih (k + 1)
    simp only [poolTraces, List.flatten_cons, updateTargets_append, updatesOf_append,
      allReceived, List.map_append, List.length_append, worker_targets, worker_updates]
    exact ⟨hw.1.append hr.1, by rw [hw.2, hr.2]⟩

theorem mem_allReceived (wss : List WorkerState) (i : Nat) (ws : WorkerState)
    (h : wss[i]? = some ws) (p : Project) (hp : p ∈ ws.received) : p ∈ allReceived wss := by
  induction wss generalizing i with
  | nil => simp at h
  | cons z rest ih =>
    cases i with
    | zero =>
      simp only [List.getElem?_cons_zero, Option.some.injEq] at h
      subst h
      simp [allReceived, hp]
    | succ n =>
      simp only [List.getElem?_cons_succ] at h
      simp [allReceived, ih n h]

/-- Every update of a worker of the pool is the update of a job that worker
received, whose fetch and upload both succeeded. -/
theorem poolTraces_origin {W : Type} (env : Env W) (starts : Nat → W) (k : Nat)
    (wss : List WorkerState) :
    ∀ u ∈ updatesOf (poolTraces env starts k wss).flatten,
      ∃ (i : Nat) (ws : WorkerState) (pre : List Project) (project : Project)
        (post : List Project),
        wss[i]? = some ws ∧ ws.received = pre ++ project :: post ∧
        (fetched env (workerLoop env (((k + i : Nat) : Int) + 1) (starts (k + i)) pre).1
          project).2.2.2 = none ∧
        (uploaded env (workerLoop env (((k + i : Nat) : Int) + 1) (starts (k + i)) pre).1
          project).2.2.2 = none ∧
        u = (updateFilter (env.objectIDFromHex project.ID).1,
          updateDoc [(uploaded env
            (workerLoop env (((k + i : Nat) : Int) + 1) (starts (k + i)) pre).1
            project).2.2.1]) := by
  induction wss generalizing k with
  | nil => intro u hu; simp [poolTraces, updatesOf] at hu
  | cons ws rest ih =>
    intro u hu
    simp only [poolTraces, List.flatten_cons, updatesOf_append, List.mem_append,
      worker_updates] at hu
    rcases hu with hu | hu
    · obtain ⟨pre, project, post, hj, hf, hup, hq⟩ :=
        workerLoop_updates_origin env ((k : Int) + 1) (starts k) ws.received u hu
      exact ⟨0, ws, pre, project, post, List.getElem?_cons_zero, hj,
        by simpa using hf, by simpa using hup, by simpa using hq⟩
    · obtain ⟨i, x, pre, project, post, hi, hj, hf, hup, hq⟩ := ih (k + 1) u hu
      have e : k + 1 + i = k + (i + 1) := by omega
      rw [e] at hf hup hq
      exact ⟨i + 1, x, pre, project, post, by rw [List.getElem?_cons_succ]; exact hi, hj,
        hf, hup, hq⟩

/-- Claim C5, amended. In every state a run of the pool reaches, on documents
whose jobs have well-formed record identifiers that parse to pairwise
distinct store identifiers, and for every behaviour of the collaborators of
every worker: in every trace made of the traces of all the `WorkerCount`
workers, taken in any order, every update targets an identifier, no
identifier is targeted twice, and every update is the update of a job of the
run, received by one worker, whose fetch and upload both succeeded. -/
theorem pool_updates_once_per_identifier {W : Type} (env : Env W) (docs : List Bson)
    (sched : List Action) (s : Pool) (starts : Nat → W)
    (hrun : Pool.run env (Pool.init docs) sched = some s)
    (_hwf : ∀ p ∈ (feedJobs env docs).1, (env.objectIDFromHex p.ID).2 = none)
    (hd : ((feedJobs env docs).1.map (fun p => (env.objectIDFromHex p.ID).1)).Nodup) :
    ∀ merged : List Event, merged.Perm (poolTraces env starts 0 s.workers).flatten →
      (updateTargets merged).Nodup ∧
      (updateTargets merged).length = (updatesOf merged).length ∧
      ∀ u ∈ updatesOf merged,
        ∃ (i : Nat) (ws : WorkerState) (pre : List Project) (project : Project)
          (post : List Project),
          s.workers[i]? = some ws ∧ ws.received = pre ++ project :: post ∧
          project ∈ (feedJobs env docs).1 ∧
          (fetched env (workerLoop env ((i : Int) + 1) (starts i) pre).1
            project).2.2.2 = none ∧
          (uploaded env (workerLoop env ((i : Int) + 1) (starts i) pre).1
            project).2.2.2 = none ∧
          u = (updateFilter (env.objectIDFromHex project.ID).1,
            updateDoc [(uploaded env (workerLoop env ((i : Int) + 1) (starts i) pre).1
              project).2.2.1]) := by
  intro merged hperm
  obtain ⟨h1, h2, _, _, _, _, _⟩ :=
    (inv_run env docs (Pool.init docs) s sched (inv_init env docs) hrun).1
  have hsub : ∀ p ∈ allReceived s.workers, p ∈ (feedJobs env docs).1 := by
    intro p hp
    have h3 : p ∈ s.sent := h2.subset (List.mem_append_left _ hp)
    rw [← h1]
    exact List.mem_append_left _ h3
  have hnd : ((allReceived s.workers).map (fun p => (env.objectIDFromHex p.ID).1)).Nodup := by
    have hs : (s.sent.map (fun p => (env.objectIDFromHex p.ID).1)).Nodup := by
      rw [← h1, List.map_append] at hd
      exact (List.sublist_append_left _ _).nodup hd
    have hp := (h2.map (fun p => (env.objectIDFromHex p.ID).1)).nodup_iff.mpr hs
    rw [List.map_append] at hp
    exact (List.sublist_append_left _ _).nodup hp
  have ht := poolTraces_targets env starts 0 s.workers
  have hpt := updateTargets_perm merged _ hperm
  have hpu := updatesOf_perm merged _ hperm
  refine ⟨hpt.nodup_iff.mpr (ht.1.nodup hnd), ?_, ?_⟩
  · rw [hpt.length_eq, hpu.length_eq]
    exact ht.2
  · intro u hu
    obtain ⟨i, ws, pre, project, post, hi, hj, hf, hup, hq⟩ :=
      poolTraces_origin env starts 0 s.workers u (hpu.subset hu)
    simp only [Nat.zero_add] at hf hup hq
    refine ⟨i, ws, pre, project, post, hi, hj, ?_, hf, hup, hq⟩
    exact hsub project (mem_allReceived s.workers i ws hi project (by rw [hj]; simp))

set_option maxRecDepth 100000 in
/-- Witness of the amended C5: the run `demoSchedule` on `runDocs`, in which
two workers each receive one of the two jobs and every collaborator succeeds. -/
theorem pool_updates_once_per_identifier_witness :
    (Pool.run happyEnv (Pool.init runDocs) demoSchedule = some runPool ∧
      (∀ p ∈ (feedJobs happyEnv runDocs).1, (happyEnv.objectIDFromHex p.ID).2 = none) ∧
      ((feedJobs happyEnv runDocs).1.map (fun p => (happyEnv.objectIDFromHex p.ID).1)).Nodup) ∧
    (∀ merged : List Event,
      merged.Perm (poolTraces happyEnv (fun _ => []) 0 runPool.workers).flatten →
      (updateTargets merged).Nodup ∧
      (updateTargets merged).length = (updatesOf merged).length ∧
      ∀ u ∈ updatesOf merged,
        ∃ (i : Nat) (ws : WorkerState) (pre : List Project) (project : Project)
          (post : List Project),
          runPool.workers[i]? = some ws ∧ ws.received = pre ++ project :: post ∧
          project ∈ (feedJobs happyEnv runDocs).1 ∧
          (fetched happyEnv (workerLoop happyEnv ((i : Int) + 1) [] pre).1
            project).2.2.2 = none ∧
          (uploaded happyEnv (workerLoop happyEnv ((i : Int) + 1) [] pre).1
            project).2.2.2 = none ∧
          u = (updateFilter (happyEnv.objectIDFromHex project.ID).1,
            updateDoc [(uploaded happyEnv (workerLoop happyEnv ((i : Int) + 1) [] pre).1
              project).2.2.1])) ∧
    updateTargets (poolTraces happyEnv (fun _ => []) 0 runPool.workers).flatten =
      [(happyEnv.objectIDFromHex jobA.ID).1, (happyEnv.objectIDFromHex jobB.ID).1] :=
  ⟨⟨by rfl, by decide, by decide⟩,
    pool_updates_once_per_identifier happyEnv runDocs demoSchedule runPool (fun _ => [])
      (by rfl) (by decide) (by decide),
    by rfl⟩

end WorkerPool
